import Mathlib

/-!
Verification of the DIF Presentation Exchange requirement-resolution engine
(`aries_cloudagent/protocols/present_proof/presentation_exchange/pres_exch_handler.py`).

The Python source is shallowly embedded: each function of the handler becomes a
Lean function of the same name; Python `None`-able attributes become `Option`;
Python truthiness tests (`if x:`) are made explicit through `pyTruthy`-style
helpers; code that can raise an uncaught exception returns `Except String`.
The data-model classes (`Filter`, `Field`, `Constraints`, `Requirement`,
`SubmissionRequirements`, `InputDescriptors`) live in `pres_exch.py`, which is
not among the sources; they are modelled from the specification, section 3.
External collaborators (the JSONPath engine, the regex engine, the date parser,
the selective-disclosure deriver) are modelled as explicit inputs or as small
total stand-ins, as noted at each definition.
-/

namespace PresExch

/-- A Python runtime value as far as the filter evaluator observes one:
integers, floats (modelled as rationals), strings and complex numbers.
Floats are modelled as exact rationals; no claim here depends on rounding. -/
inductive PyVal where
  | int (n : Int)
  | float (q : Rat)
  | str (s : String)
  | complex (re im : Rat)
deriving DecidableEq, Repr

/-- Python truthiness of a `PyVal` (`if x:`): zero and the empty string are falsy. -/
def PyVal.truthy : PyVal → Bool
  | .int n => n ≠ 0
  | .float q => q ≠ 0
  | .str s => s ≠ ""
  | .complex re im => re ≠ 0 || im ≠ 0

/-- Truthiness of an optional value: `None` is falsy. -/
def pyTruthyOpt : Option PyVal → Bool
  | none => false
  | some v => v.truthy

/-- Truthiness of an optional string attribute (`None` and `""` are falsy). -/
def pyTruthyOptStr : Option String → Bool
  | none => false
  | some s => s ≠ ""

/-- Truthiness of an optional integer attribute (`None` and `0` are falsy). -/
def pyTruthyOptInt : Option Int → Bool
  | none => false
  | some n => n ≠ 0

/-- The numeric (real) content of a `PyVal`, when it is an `int` or a `float`.
Complex numbers are deliberately not numeric here, mirroring `is_numeric`. -/
def PyVal.asRat? : PyVal → Option Rat
  | .int n => some (n : Rat)
  | .float q => some q
  | _ => none

/-- Python `==` on the observed values: numbers compare by value across
`int`/`float`/`complex`, strings compare as strings, and a number never
equals a string. -/
def pyEq (a b : PyVal) : Bool :=
  let toC : PyVal → Option (Rat × Rat) := fun v =>
    match v with
    | .int n => some ((n : Rat), 0)
    | .float q => some (q, 0)
    | .complex re im => some (re, im)
    | .str _ => none
  match toC a, toC b with
  | some x, some y => x = y
  | _, _ =>
    match a, b with
    | .str s, .str t => s = t
    | _, _ => false

/-- Python `a > b` restricted to the way the handler uses it inside
`try: ... except (TypeError, ValueError)`: comparing an `int`/`float` with an
`int`/`float` yields the numeric comparison; every other combination raises
`TypeError`, which the callers catch and turn into `false`. -/
def pyGt (a b : PyVal) : Bool :=
  match a.asRat?, b.asRat? with
  | some x, some y => x > y
  | _, _ => false

/-- Python `a < b`, with the same `TypeError`-to-`false` convention as `pyGt`. -/
def pyLt (a b : PyVal) : Bool :=
  match a.asRat?, b.asRat? with
  | some x, some y => x < y
  | _, _ => false

/-- Python `a >= b`, with the same `TypeError`-to-`false` convention as `pyGt`. -/
def pyGe (a b : PyVal) : Bool :=
  match a.asRat?, b.asRat? with
  | some x, some y => x ≥ y
  | _, _ => false

/-- Python `a <= b`, with the same `TypeError`-to-`false` convention as `pyGt`. -/
def pyLe (a b : PyVal) : Bool :=
  match a.asRat?, b.asRat? with
  | some x, some y => x ≤ y
  | _, _ => false

/-- Python `str(v)` as far as the handler observes it. The exact rendering of
floats and complex numbers is irrelevant to every claim; only strings need to
round-trip, which they do. -/
def pyStrOf : PyVal → String
  | .int n => toString n
  | .float q => toString q
  | .str s => s
  | .complex re im => toString re ++ "+" ++ toString im ++ "j"

/-- Modelled from the spec: the `Filter` data model of `pres_exch.py` (not among
the sources) — a typed leaf constraint with optional `const`, `enum`, `pattern`,
length bounds, numeric/date bounds, a `format`, and a `not` negation flag.
Field names follow the attribute names used by the handler source. -/
structure Filter where
  _type : Option String := none
  fmt : Option String := none
  pattern : Option String := none
  min_length : Option Int := none
  max_length : Option Int := none
  const : Option PyVal := none
  enums : List PyVal := []
  exclusive_min : Option PyVal := none
  exclusive_max : Option PyVal := none
  minimum : Option PyVal := none
  maximum : Option PyVal := none
  _not : Bool := false
deriving DecidableEq, Repr

/-- Modelled from the spec: the `Field` data model of `pres_exch.py` (not among
the sources) — an ordered sequence of path expressions, an optional `Filter`,
and an optional `predicate` directive. -/
structure Field where
  paths : List String := []
  _filter : Option Filter := none
  predicate : Option String := none

/-- Modelled from the spec: the `Constraints` data model of `pres_exch.py`
(not among the sources) — ordered fields plus the `limit_disclosure` and
`subject_is_issuer` directives. -/
structure Constraints where
  subject_issuer : Option String := none
  limit_disclosure : Option String := none
  _fields : List Field := []

/-- Modelled from the spec: the `SchemaInputDescriptor` data model of
`pres_exch.py` (not among the sources). -/
structure SchemaInputDescriptor where
  uri : String
  required : Bool := false

/-- Modelled from the spec: the `InputDescriptors` data model of
`pres_exch.py` (not among the sources) — id, groups, schemas and constraint. -/
structure InputDescriptors where
  _id : String
  groups : List String := []
  schemas : List SchemaInputDescriptor := []
  constraint : Constraints := {}

/-- Modelled from the spec: the `SubmissionRequirements` data model of
`pres_exch.py` (not among the sources). Exactly one of `_from` / `from_nested`
is meant to be populated; `rule`, `count`, `minimum`, `maximum` are optional. -/
inductive SubmissionRequirements where
  | mk (_from : Option String) (from_nested : List SubmissionRequirements)
       (rule : Option String) (count minimum maximum : Option Int)

/-- The `from` attribute of a submission requirement. -/
def SubmissionRequirements._from : SubmissionRequirements → Option String
  | .mk f _ _ _ _ _ => f

/-- The `from_nested` attribute of a submission requirement. -/
def SubmissionRequirements.from_nested :
    SubmissionRequirements → List SubmissionRequirements
  | .mk _ fn _ _ _ _ => fn

/-- The `rule` attribute of a submission requirement. -/
def SubmissionRequirements.rule : SubmissionRequirements → Option String
  | .mk _ _ r _ _ _ => r

/-- The `count` attribute of a submission requirement. -/
def SubmissionRequirements.count : SubmissionRequirements → Option Int
  | .mk _ _ _ c _ _ => c

/-- The `minimum` attribute of a submission requirement. -/
def SubmissionRequirements.minimum : SubmissionRequirements → Option Int
  | .mk _ _ _ _ m _ => m

/-- The `maximum` attribute of a submission requirement. -/
def SubmissionRequirements.maximum : SubmissionRequirements → Option Int
  | .mk _ _ _ _ _ m => m

/-- Modelled from the spec: the derived `Requirement` node of `pres_exch.py`
(not among the sources) — cardinality attributes plus either leaf
`input_descriptors` or branch `nested_req`. -/
structure Requirement where
  count : Option Int := none
  maximum : Option Int := none
  minimum : Option Int := none
  input_descriptors : List InputDescriptors := []
  nested_req : List Requirement := []

/-- A `VCRecord` as far as the handler observes one: the stable `given_id`,
issuer and subject identifiers, and the claim graph. The claim graph is
represented by its observable behaviour under the external JSONPath engine
(a non-goal of the spec): `claims path` is the list of values that
`jsonpath_ng.parse(path).find(credential_dict)` yields. -/
structure VCRecordM where
  given_id : String
  issuer_id : String := ""
  subject_ids : List String := []
  claims : String → List PyVal := fun _ => []

/-- `is_numeric` of the handler: true exactly for Python `int` and `float`
values (complex numbers and strings are not numeric). -/
def is_numeric : PyVal → Bool
  | .int _ => true
  | .float _ => true
  | _ => false

/-- Modelled from the spec: the external date-parsing collaborator
(`dateutil.parser.parse`), restricted to ISO `YYYY-MM-DD` dates. It returns a
UTC-normalized instant as an integer that orders chronologically; any other
text fails to parse (a `ValueError`, which every caller catches). No claim
settled here depends on the internals of date parsing. -/
def dateutil_parse (s : String) : Option Int :=
  match (s.splitOn "-").map String.toNat? with
  | [some y, some m, some d] =>
    if 1 ≤ m ∧ m ≤ 12 ∧ 1 ≤ d ∧ d ≤ 31 then some ((y : Int) * 10000 + m * 100 + d)
    else none
  | _ => none

/-- `dateutil_parser` applied to a filter attribute: parsing a non-string (or
missing) bound raises `TypeError`, which the callers catch. -/
def dateutil_parse_opt : Option PyVal → Option Int
  | some (.str s) => dateutil_parse s
  | _ => none

/-- Whether the filter format is a date format (`date` or `date-time`). -/
def isDateFmt (fmt : Option String) : Bool :=
  fmt = some "date" || fmt = some "date-time"

/-- `exclusive_minimum_check` of the handler: with a date format, compare
parsed dates; otherwise compare numerically when the value is numeric; parse
and type errors yield `false`. -/
def exclusive_minimum_check (val : PyVal) (f : Filter) : Bool :=
  if pyTruthyOptStr f.fmt then
    if isDateFmt f.fmt then
      match dateutil_parse_opt f.exclusive_min, dateutil_parse (pyStrOf val) with
      | some cmp, some given => given > cmp
      | _, _ => false
    else false
  else
    if is_numeric val then
      match f.exclusive_min with
      | some bound => pyGt val bound
      | none => false
    else false

/-- `exclusive_maximum_check` of the handler: the mirror of
`exclusive_minimum_check` with the comparison reversed. -/
def exclusive_maximum_check (val : PyVal) (f : Filter) : Bool :=
  if pyTruthyOptStr f.fmt then
    if isDateFmt f.fmt then
      match dateutil_parse_opt f.exclusive_max, dateutil_parse (pyStrOf val) with
      | some cmp, some given => given < cmp
      | _, _ => false
    else false
  else
    if is_numeric val then
      match f.exclusive_max with
      | some bound => pyLt val bound
      | none => false
    else false

/-- `maximum_check` of the handler: non-strict variant of
`exclusive_maximum_check`. -/
def maximum_check (val : PyVal) (f : Filter) : Bool :=
  if pyTruthyOptStr f.fmt then
    if isDateFmt f.fmt then
      match dateutil_parse_opt f.maximum, dateutil_parse (pyStrOf val) with
      | some cmp, some given => given ≤ cmp
      | _, _ => false
    else false
  else
    if is_numeric val then
      match f.maximum with
      | some bound => pyLe val bound
      | none => false
    else false

/-- `minimum_check` of the handler: non-strict variant of
`exclusive_minimum_check`. -/
def minimum_check (val : PyVal) (f : Filter) : Bool :=
  if pyTruthyOptStr f.fmt then
    if isDateFmt f.fmt then
      match dateutil_parse_opt f.minimum, dateutil_parse (pyStrOf val) with
      | some cmp, some given => given ≥ cmp
      | _, _ => false
    else false
  else
    if is_numeric val then
      match f.minimum with
      | some bound => pyGe val bound
      | none => false
    else false

/-- `length_check` of the handler: `len(str(val))` against the truthy
`minLength` / `maxLength` bounds. -/
def length_check (val : PyVal) (f : Filter) : Bool :=
  let given_len : Int := (pyStrOf val).length
  if pyTruthyOptInt f.max_length ∧ pyTruthyOptInt f.min_length then
    given_len ≤ f.max_length.getD 0 ∧ given_len ≥ f.min_length.getD 0
  else if pyTruthyOptInt f.max_length ∧ ¬ pyTruthyOptInt f.min_length then
    given_len ≤ f.max_length.getD 0
  else if ¬ pyTruthyOptInt f.max_length ∧ pyTruthyOptInt f.min_length then
    given_len ≥ f.min_length.getD 0
  else false

/-- Modelled stand-in for the external regex engine: `re.search` is modelled
as substring occurrence. No claim settled here depends on regex semantics. -/
def re_search (pat s : String) : Bool :=
  pat = "" || (s.splitOn pat).length > 1

/-- `pattern_check` of the handler: regex search of the pattern in `str(val)`
when the pattern attribute is truthy, else `false`. -/
def pattern_check (val : PyVal) (f : Filter) : Bool :=
  if pyTruthyOptStr f.pattern then re_search (f.pattern.getD "") (pyStrOf val)
  else false

/-- `const_check` of the handler: Python equality of the value with `const`. -/
def const_check (val : PyVal) (f : Filter) : Bool :=
  match f.const with
  | some c => pyEq val c
  | none => false

/-- `enum_check` of the handler: Python membership of the value in `enum`. -/
def enum_check (val : PyVal) (f : Filter) : Bool :=
  f.enums.any (fun e => pyEq val e)

/-- `process_numeric_val` of the handler: the `elif` chain dispatching a
`number`-typed filter to exactly one check, in the source order
exclusive-max, exclusive-min, minimum, maximum, const, enum. An attribute is
active when it is Python-truthy. -/
def process_numeric_val (val : PyVal) (f : Filter) : Bool :=
  if pyTruthyOpt f.exclusive_max then exclusive_maximum_check val f
  else if pyTruthyOpt f.exclusive_min then exclusive_minimum_check val f
  else if pyTruthyOpt f.minimum then minimum_check val f
  else if pyTruthyOpt f.maximum then maximum_check val f
  else if pyTruthyOpt f.const then const_check val f
  else if f.enums ≠ [] then enum_check val f
  else false

/-- `process_string_val` of the handler: the `elif` chain for `string`-typed
filters — length, pattern, enum, then the format-qualified bounds (which fall
through to `None`, observed as `false`, when no format is set), then const. -/
def process_string_val (val : PyVal) (f : Filter) : Bool :=
  if pyTruthyOptInt f.min_length || pyTruthyOptInt f.max_length then length_check val f
  else if pyTruthyOptStr f.pattern then pattern_check val f
  else if f.enums ≠ [] then enum_check val f
  else if pyTruthyOpt f.exclusive_max then
    if pyTruthyOptStr f.fmt then exclusive_maximum_check val f else false
  else if pyTruthyOpt f.exclusive_min then
    if pyTruthyOptStr f.fmt then exclusive_minimum_check val f else false
  else if pyTruthyOpt f.minimum then
    if pyTruthyOptStr f.fmt then minimum_check val f else false
  else if pyTruthyOpt f.maximum then
    if pyTruthyOptStr f.fmt then maximum_check val f else false
  else if pyTruthyOpt f.const then const_check val f
  else false

/-- The body of `validate_patch` for a present filter: dispatch on
`filter.type`; with no type, the enum check runs first and a present const
check overwrites it; the tracked value starts as Python `None` and the final
`not` inversion treats `None` like `False` (both are falsy, `not None` is
`True`). The returned boolean is the truthiness of the Python return value. -/
def validate_patch_core (to_check : PyVal) (f : Filter) : Bool :=
  let return_val : Option Bool :=
    if pyTruthyOptStr f._type then
      if f._type = some "number" then some (process_numeric_val to_check f)
      else if f._type = some "string" then some (process_string_val to_check f)
      else none
    else
      let rv : Option Bool := if f.enums ≠ [] then some (enum_check to_check f) else none
      if pyTruthyOpt f.const then some (const_check to_check f) else rv
  if f._not then !(return_val.getD false) else return_val.getD false

/-- `validate_patch` of the handler. The source dereferences `_filter._type`
unconditionally, so a call with an absent filter raises `AttributeError`
(`NoneType` has no attribute `_type`), modelled as an error. -/
def validate_patch (to_check : PyVal) (f : Option Filter) : Except String Bool :=
  match f with
  | none => .error "AttributeError: NoneType object has no attribute _type"
  | some f => .ok (validate_patch_core to_check f)

/-- `filter_by_field` of the handler: walk the paths in order, skip paths with
no JSONPath matches, and test each matched value with `validate_patch`,
returning true at the first passing value; an exception from `validate_patch`
propagates. `checkMatches` is the inner `for match_item in match` loop. -/
def checkMatches (f : Option Filter) : List PyVal → Except String Bool
  | [] => .ok false
  | v :: vs =>
    match validate_patch v f with
    | .error e => .error e
    | .ok true => .ok true
    | .ok false => checkMatches f vs

/-- The outer `for path in field.paths` loop of `filter_by_field`. -/
def filterByFieldPaths (field : Field) (credential : VCRecordM) :
    List String → Except String Bool
  | [] => .ok false
  | p :: ps =>
    match credential.claims p with
    | [] => filterByFieldPaths field credential ps
    | v :: vs =>
      match checkMatches field._filter (v :: vs) with
      | .error e => .error e
      | .ok true => .ok true
      | .ok false => filterByFieldPaths field credential ps

/-- `filter_by_field` of the handler. -/
def filter_by_field (field : Field) (credential : VCRecordM) : Except String Bool :=
  filterByFieldPaths field credential field.paths

/-- `subject_is_issuer` of the handler: some subject id is non-empty and equal
to the issuer id. -/
def subject_is_issuer (credential : VCRecordM) : Bool :=
  credential.subject_ids.any (fun sid => sid ≠ "" && sid = credential.issuer_id)

/-- The `for field in constraints._fields` loop of `filter_constraints`: the
running `applicable` flag is overwritten by each field and the loop breaks at
the first match, so it ends true exactly when some field matched before any
later field was consulted. The loop also tracks a `predicate` flag that the
source never reads afterwards; it is omitted here as dead code. An exception
from `filter_by_field` propagates. -/
def constraint_fields_applicable (fields : List Field) (credential : VCRecordM) :
    Except String Bool :=
  match fields with
  | [] => .ok false
  | f :: rest =>
    match filter_by_field f credential with
    | .error e => .error e
    | .ok true => .ok true
    | .ok false => constraint_fields_applicable rest credential

/-- `filter_constraints` of the handler. The wallet-key setup and the
limit-disclosure reveal-document construction culminate in a call to the
external `derive_credential` collaborator that replaces the credential by a
redacted copy; that whole replacement is the `derive` input. Credentials are
processed in order: a `subject_is_issuer == "required"` failure skips the
credential before any field is evaluated, an unmatched credential is skipped,
and a matched one is retained (redacted first when `limit_disclosure` is
truthy). -/
def filter_constraints (derive : Constraints → VCRecordM → VCRecordM)
    (constraints : Constraints) (credentials : List VCRecordM) :
    Except String (List VCRecordM) :=
  match credentials with
  | [] => .ok []
  | credential :: rest =>
    if constraints.subject_issuer = some "required" ∧ ¬ subject_is_issuer credential then
      filter_constraints derive constraints rest
    else
      match constraint_fields_applicable constraints._fields credential with
      | .error e => .error e
      | .ok false => filter_constraints derive constraints rest
      | .ok true =>
        let credential' :=
          if pyTruthyOptStr constraints.limit_disclosure then derive constraints credential
          else credential
        match filter_constraints derive constraints rest with
        | .error e => .error e
        | .ok out => .ok (credential' :: out)

/-- `is_len_applicable` of the handler: each of `count`, `minimum`, `maximum`
is consulted only when Python-truthy, and only rejects when also positive. -/
def is_len_applicable (req : Requirement) (val : Int) : Bool :=
  if pyTruthyOptInt req.count ∧ req.count.getD 0 > 0 ∧ val ≠ req.count.getD 0 then
    false
  else if pyTruthyOptInt req.minimum ∧ req.minimum.getD 0 > 0 ∧ req.minimum.getD 0 > val then
    false
  else if pyTruthyOptInt req.maximum ∧ req.maximum.getD 0 > 0 ∧ req.maximum.getD 0 < val then
    false
  else true

/-- `contains` of the handler: linear search of `e` in `data`. -/
def contains (data : List String) (e : String) : Bool :=
  match data with
  | [] => false
  | k :: rest => if e = k then true else contains rest e

mutual

/-- `to_requirement` of the handler. A truthy `from` builds a leaf from the
descriptors whose groups contain it, raising when none does; otherwise the
nested submission requirements are built recursively, the first child error
being wrapped and re-raised. `rule == "all"` forces `count` to the total. -/
def to_requirement (sr : SubmissionRequirements) (descriptors : List InputDescriptors) :
    Except String Requirement :=
  match sr with
  | .mk f fn rule cnt mn mx =>
    if pyTruthyOptStr f then
      let input_descriptors := descriptors.filter (fun d => contains d.groups (f.getD ""))
      let total_count : Int := input_descriptors.length
      if total_count = 0 then
        .error ("No descriptors for from: " ++ f.getD "")
      else
        let count := if rule = some "all" then some total_count else cnt
        .ok { count := count, maximum := mx, minimum := mn,
              input_descriptors := input_descriptors, nested_req := [] }
    else
      match to_requirement_list fn descriptors with
      | .error err =>
        .error ("Error creating requirement from nested submission_requirements, " ++ err)
      | .ok nested =>
        let total_count : Int := nested.length
        let count := if rule = some "all" then some total_count else cnt
        .ok { count := count, maximum := mx, minimum := mn,
              input_descriptors := [], nested_req := nested }

/-- The loop over nested submission requirements inside `to_requirement` and
`make_requirement`: build each child in order and stop at the first error. -/
def to_requirement_list (srs : List SubmissionRequirements)
    (descriptors : List InputDescriptors) : Except String (List Requirement) :=
  match srs with
  | [] => .ok []
  | sr :: rest =>
    match to_requirement sr descriptors with
    | .error e => .error e
    | .ok r =>
      match to_requirement_list rest descriptors with
      | .error e => .error e
      | .ok rs => .ok (r :: rs)

end

/-- `make_requirement` of the handler: with no submission requirements, a
single leaf over all descriptors with `count` their number; otherwise a
synthetic root whose children are the built requirements, any child error
being wrapped and re-raised. -/
def make_requirement (srs : List SubmissionRequirements)
    (descriptors : List InputDescriptors) : Except String Requirement :=
  if srs.length = 0 then
    .ok { count := some (descriptors.length : Int), input_descriptors := descriptors,
          nested_req := [] }
  else
    match to_requirement_list srs descriptors with
    | .error err =>
      .error ("Error creating requirement inside to_requirement function, " ++ err)
    | .ok nested =>
      .ok { count := some (srs.length : Int), nested_req := nested }

/-- A Python dict from descriptor ids to credential lists, as an
insertion-ordered association list. -/
abbrev CredMap := List (String × List VCRecordM)

/-- Python dict assignment `result[key] = v`: update in place when the key is
present (keeping its position), else append at the end. -/
def dictSet (result : CredMap) (key : String) (v : List VCRecordM) : CredMap :=
  match result with
  | [] => [(key, v)]
  | (k, w) :: rest =>
    if k = key then (key, v) :: rest else (k, w) :: dictSet rest key v

/-- The exclusion set that `apply_requirements` builds: for every
`(descriptor_id, given_id)` pair of a credential whose satisfying-descriptor
count fails the branch cardinality rule, the dict key is the bare string
concatenation `descriptor_id + given_id`. -/
def excludeOfPairs (pairs : List (String × String)) : List String :=
  pairs.map (fun p => p.1 ++ p.2)

/-- One step of the accumulation loops inside `merge_nested_results`: skip a
credential whose `given_id` was already accumulated or whose
`key + given_id` concatenation sits in `exclude`; otherwise append it and
remember its `given_id`. -/
def mnrStep (exclude : List String) (key : String)
    (acc : List VCRecordM × List String) (credential : VCRecordM) :
    List VCRecordM × List String :=
  if credential.given_id ∈ acc.2 then acc
  else if (key ++ credential.given_id) ∈ exclude then acc
  else (acc.1 ++ [credential], acc.2 ++ [credential.given_id])

/-- The rebuild pass of `merge_nested_results` over an existing entry
`result[key]`: re-accumulate with only the `given_id` dedup (no exclusion
check, the entry already passed it). -/
def mnrRebuildStep (acc : List VCRecordM × List String) (credential : VCRecordM) :
    List VCRecordM × List String :=
  if credential.given_id ∈ acc.2 then acc
  else (acc.1 ++ [credential], acc.2 ++ [credential.given_id])

/-- The starting accumulator for one `(key, credentials)` entry of
`merge_nested_results`: the rebuild pass over the present `result[key]`, or
the empty accumulator when the key is new. -/
def mnrStart (result : CredMap) (key : String) : List VCRecordM × List String :=
  match result.lookup key with
  | some existing => existing.foldl mnrRebuildStep ([], [])
  | none => ([], [])

/-- The body of `merge_nested_results` for one `(key, credentials)` entry of
one nested map: rebuild the present `result[key]` (if any), extend it with the
new credentials under dedup and exclusion, and store it back. -/
def mnrKeyStep (exclude : List String) (result : CredMap) (key : String)
    (credentials : List VCRecordM) : CredMap :=
  dictSet result key
    ((credentials.foldl (mnrStep exclude key) (mnrStart result key)).1)

/-- `merge_nested_results` of the handler: fold the nested result maps in
order, merging each map entry into the accumulated dict. -/
def merge_nested_results (nested_result : List CredMap) (exclude : List String) :
    CredMap :=
  nested_result.foldl
    (fun result res =>
      res.foldl (fun result kv => mnrKeyStep exclude result kv.1 kv.2) result)
    []

/-- `InputDescriptorMapping` of `pres_exch.py` (not among the sources),
modelled from the spec: descriptor id, format, and a JSONPath into the
assembled credential array. -/
structure InputDescriptorMapping where
  _id : String
  fmt : String
  path : String
deriving DecidableEq, Repr

/-- Lexicographic code-point order on character lists, the order Python uses
to compare strings. -/
def charListLt : List Char → List Char → Bool
  | [], [] => false
  | [], _ :: _ => true
  | _ :: _, [] => false
  | a :: as, b :: bs =>
    if a.toNat < b.toNat then true
    else if b.toNat < a.toNat then false
    else charListLt as bs

/-- Python string comparison `a < b`: lexicographic on code points. -/
def strLt (a b : String) : Bool :=
  charListLt a.data b.data

/-- A stable insertion of `x` into `l`: `x` goes in front of the first element
that is strictly greater. -/
def insertStable (lt : α → α → Bool) (x : α) : List α → List α
  | [] => [x]
  | y :: ys => if lt y x then y :: insertStable lt x ys else x :: y :: ys

/-- Python's built-in stable sort (`sorted`), modelled as insertion sort. -/
def pySorted (lt : α → α → Bool) : List α → List α
  | [] => []
  | x :: xs => insertStable lt x (pySorted lt xs)

/-- The mutable state of the `merge` loops: `dict_of_creds` maps a placed
`given_id` to the number recorded for it, `dict_of_descriptors` is consulted
but never extended by the source, `result` is the output credential list and
`descriptors` the output mapping list. -/
structure MergeState where
  dict_of_creds : List (String × Nat) := []
  dict_of_descriptors : List String := []
  result : List VCRecordM := []
  descriptors : List InputDescriptorMapping := []

/-- The first statement of the `for credential in credentials` loop of
`merge`: a first-seen credential is appended to `result` and
`len(descriptors)` is recorded for it in `dict_of_creds`. -/
def mergePlaceCred (st : MergeState) (credential : VCRecordM) : MergeState :=
  if (st.dict_of_creds.lookup credential.given_id).isNone then
    { st with
      result := st.result ++ [credential],
      dict_of_creds :=
        st.dict_of_creds ++ [(credential.given_id, st.descriptors.length)] }
  else st

/-- The second statement of the loop: since the key
`given_id + "-" + given_id` is never inserted into `dict_of_descriptors`, a
mapping whose path uses the number recorded in `dict_of_creds` is appended
unconditionally. -/
def mergeAddMapping (desc_id : String) (st : MergeState) (credential : VCRecordM) :
    MergeState :=
  if (credential.given_id ++ "-" ++ credential.given_id) ∈ st.dict_of_descriptors then
    st
  else
    let idx := (st.dict_of_creds.lookup credential.given_id).getD 0
    { st with
      descriptors := st.descriptors ++
        [{ _id := desc_id, fmt := "ldp_vp",
           path := "$.verifiableCredential[" ++ toString idx ++ "]" }] }

/-- The body of the `for credential in credentials` loop of `merge`:
place the credential, then append its descriptor mapping. -/
def mergeCredStep (desc_id : String) (st : MergeState) (credential : VCRecordM) :
    MergeState :=
  mergeAddMapping desc_id (mergePlaceCred st credential) credential

/-- `merge` of the handler: iterate descriptor ids in sorted order, run
`mergeCredStep` over each id's credentials, and finally sort the mappings by
descriptor id (Python `sorted` with key `_id`, stable). -/
def merge (dict_descriptor_creds : CredMap) :
    List VCRecordM × List InputDescriptorMapping :=
  let sorted_desc_keys :=
    pySorted strLt (dict_descriptor_creds.map Prod.fst)
  let final :=
    sorted_desc_keys.foldl
      (fun st desc_id =>
        let credentials := (dict_descriptor_creds.lookup desc_id).getD []
        credentials.foldl (mergeCredStep desc_id) st)
      {}
  (final.result,
   pySorted (fun a b => strLt a._id b._id) final.descriptors)

/-- Whether an `Except` computation ended in a raised exception. -/
def isError : Except String α → Bool
  | .error _ => true
  | .ok _ => false

end PresExch

namespace PresExch

/-- A raised computation is exactly an `Except.error`. -/
lemma isError_exists {α} (x : Except String α) (h : isError x = true) :
    ∃ e, x = .error e := by
  cases x with
  | error e => exact ⟨e, rfl⟩
  | ok a => simp [isError] at h

/-- C4: `is_len_applicable(req, n)` returns false exactly when count is
present, positive and missed, or minimum is present, positive and above `n`,
or maximum is present, positive and below `n`; all present checks apply
simultaneously. -/
theorem C4_is_len_applicable_iff (req : Requirement) (n : Int) :
    is_len_applicable req n = false ↔
      (∃ c, req.count = some c ∧ c > 0 ∧ n ≠ c) ∨
      (∃ m, req.minimum = some m ∧ m > 0 ∧ n < m) ∨
      (∃ M, req.maximum = some M ∧ M > 0 ∧ n > M) := by
  obtain ⟨cnt, mx, mn, ids, nst⟩ := req
  cases cnt <;> cases mn <;> cases mx <;>
    simp [is_len_applicable, pyTruthyOptInt] <;> omega

/-- C4 witness: the characterization applied at the concrete requirement
with `count = 2` and value `3`. -/
theorem C4_is_len_applicable_iff_witness :
    is_len_applicable
      { count := some 2, maximum := none, minimum := none,
        input_descriptors := [], nested_req := [] } 3 = false :=
  (C4_is_len_applicable_iff _ 3).mpr (Or.inl ⟨2, rfl, by decide, by decide⟩)

/-- C5 counterexample: for the requirement with only `maximum = 2`, the count
2 is within the bounds and passes, `count` is not set, yet increasing to 3
turns the pass into a fail — refuting the claimed monotonicity, which allowed
a fail only when `count` is set and mismatched. -/
theorem C5_monotonicity_counterexample :
    (2 : Int) < 3 ∧
    (∀ m : Int,
      ({ count := none, maximum := some 2, minimum := none,
         input_descriptors := [], nested_req := [] } : Requirement).minimum = some m →
        (2 : Int) ≥ m) ∧
    (∀ M : Int,
      ({ count := none, maximum := some 2, minimum := none,
         input_descriptors := [], nested_req := [] } : Requirement).maximum = some M →
        (2 : Int) ≤ M) ∧
    is_len_applicable
      { count := none, maximum := some 2, minimum := none,
        input_descriptors := [], nested_req := [] } 2 = true ∧
    (¬ ∃ c : Int,
      ({ count := none, maximum := some 2, minimum := none,
         input_descriptors := [], nested_req := [] } : Requirement).count = some c ∧
        (3 : Int) ≠ c) ∧
    is_len_applicable
      { count := none, maximum := some 2, minimum := none,
        input_descriptors := [], nested_req := [] } 3 = false := by
  refine ⟨by decide, ?_, ?_, by decide, ?_, by decide⟩
  · intro m h
    exact nomatch h
  · intro M h
    injection h with h
    omega
  · rintro ⟨c, h, -⟩
    exact nomatch h

/-- C5 amended: increasing a count that was within the minimum and maximum
bounds never turns a pass into a fail, unless `count` is set and mismatched,
or `maximum` is set, positive, and exceeded by the new value. -/
theorem C5_is_len_applicable_monotonic_amended (req : Requirement) (n n' : Int)
    (hlt : n < n')
    (hmin : ∀ m, req.minimum = some m → n ≥ m)
    (hmax : ∀ M, req.maximum = some M → n ≤ M)
    (hpass : is_len_applicable req n = true)
    (hcount : ∀ c, req.count = some c → n' = c)
    (hmax' : ∀ M, req.maximum = some M → M > 0 → n' ≤ M) :
    is_len_applicable req n' = true := by
  clear hmax hpass
  obtain ⟨cnt, mx, mn, ids, nst⟩ := req
  cases cnt with
  | none =>
    cases mn with
    | none =>
      cases mx with
      | none => simp [is_len_applicable, pyTruthyOptInt]
      | some M =>
        have hM := hmax' M rfl
        rcases lt_or_le 0 M with h0 | h0
        · have := hM h0
          simp only [is_len_applicable, pyTruthyOptInt] at *
          split_ifs <;> simp_all <;> omega
        · simp only [is_len_applicable, pyTruthyOptInt] at *
          split_ifs <;> simp_all <;> omega
    | some m =>
      have := hmin m rfl
      cases mx with
      | none =>
        simp only [is_len_applicable, pyTruthyOptInt] at *
        split_ifs <;> simp_all <;> omega
      | some M =>
        have hM := hmax' M rfl
        rcases lt_or_le 0 M with h0 | h0
        · have := hM h0
          simp only [is_len_applicable, pyTruthyOptInt] at *
          split_ifs <;> simp_all <;> omega
        · simp only [is_len_applicable, pyTruthyOptInt] at *
          split_ifs <;> simp_all <;> omega
  | some c =>
    have := hcount c rfl
    cases mn with
    | none =>
      cases mx with
      | none =>
        simp only [is_len_applicable, pyTruthyOptInt] at *
        split_ifs <;> simp_all <;> omega
      | some M =>
        have hM := hmax' M rfl
        rcases lt_or_le 0 M with h0 | h0
        · have := hM h0
          simp only [is_len_applicable, pyTruthyOptInt] at *
          split_ifs <;> simp_all <;> omega
        · simp only [is_len_applicable, pyTruthyOptInt] at *
          split_ifs <;> simp_all <;> omega
    | some m =>
      have := hmin m rfl
      cases mx with
      | none =>
        simp only [is_len_applicable, pyTruthyOptInt] at *
        split_ifs <;> simp_all <;> omega
      | some M =>
        have hM := hmax' M rfl
        rcases lt_or_le 0 M with h0 | h0
        · have := hM h0
          simp only [is_len_applicable, pyTruthyOptInt] at *
          split_ifs <;> simp_all <;> omega
        · simp only [is_len_applicable, pyTruthyOptInt] at *
          split_ifs <;> simp_all <;> omega

/-- C8 counterexample: a `number`-typed filter whose only active constraint is
`const = "abc"` evaluates to `true` on the non-numeric value `"abc"` — the
numeric-type guard does not apply to the const (or enum) checks. -/
theorem C8_nonnumeric_const_counterexample :
    validate_patch_core (.str "abc")
      { _type := some "number", const := some (.str "abc") } = true ∧
    process_numeric_val (.str "abc")
      { _type := some "number", const := some (.str "abc") } = true ∧
    is_numeric (.str "abc") = false :=
  ⟨rfl, rfl, rfl⟩

/-- C8 amended: `process_numeric_val` dispatches to exactly one check, in the
priority order exclusive-max, exclusive-min, minimum, maximum, const, enum
(an attribute is active when Python-truthy, and later attributes are ignored
when an earlier one is active); the `is_numeric` guard protects only the four
comparison checks, and only when no format is set — `const` and `enum` compare
the raw value, so non-numeric values can pass them; `is_numeric` holds exactly
for integers and floats, never for strings or complex numbers. -/
theorem C8_process_numeric_val_amended (val : PyVal) (f : Filter) :
    (pyTruthyOpt f.exclusive_max = true →
      process_numeric_val val f = exclusive_maximum_check val f) ∧
    (pyTruthyOpt f.exclusive_max = false → pyTruthyOpt f.exclusive_min = true →
      process_numeric_val val f = exclusive_minimum_check val f) ∧
    (pyTruthyOpt f.exclusive_max = false → pyTruthyOpt f.exclusive_min = false →
      pyTruthyOpt f.minimum = true →
      process_numeric_val val f = minimum_check val f) ∧
    (pyTruthyOpt f.exclusive_max = false → pyTruthyOpt f.exclusive_min = false →
      pyTruthyOpt f.minimum = false → pyTruthyOpt f.maximum = true →
      process_numeric_val val f = maximum_check val f) ∧
    (pyTruthyOpt f.exclusive_max = false → pyTruthyOpt f.exclusive_min = false →
      pyTruthyOpt f.minimum = false → pyTruthyOpt f.maximum = false →
      pyTruthyOpt f.const = true →
      process_numeric_val val f = const_check val f) ∧
    (pyTruthyOpt f.exclusive_max = false → pyTruthyOpt f.exclusive_min = false →
      pyTruthyOpt f.minimum = false → pyTruthyOpt f.maximum = false →
      pyTruthyOpt f.const = false → f.enums ≠ [] →
      process_numeric_val val f = enum_check val f) ∧
    (pyTruthyOpt f.exclusive_max = false → pyTruthyOpt f.exclusive_min = false →
      pyTruthyOpt f.minimum = false → pyTruthyOpt f.maximum = false →
      pyTruthyOpt f.const = false → f.enums = [] →
      process_numeric_val val f = false) ∧
    (is_numeric val = false → pyTruthyOptStr f.fmt = false →
      exclusive_maximum_check val f = false ∧ exclusive_minimum_check val f = false ∧
      minimum_check val f = false ∧ maximum_check val f = false) ∧
    ((∃ s, val = .str s) ∨ (∃ a b, val = .complex a b) → is_numeric val = false) ∧
    ((∃ n, val = .int n) ∨ (∃ q, val = .float q) → is_numeric val = true) := by
  refine ⟨?_, ?_, ?_, ?_, ?_, ?_, ?_, ?_, ?_, ?_⟩
  · intro h1
    simp [process_numeric_val, h1]
  · intro h1 h2
    simp [process_numeric_val, h1, h2]
  · intro h1 h2 h3
    simp [process_numeric_val, h1, h2, h3]
  · intro h1 h2 h3 h4
    simp [process_numeric_val, h1, h2, h3, h4]
  · intro h1 h2 h3 h4 h5
    simp [process_numeric_val, h1, h2, h3, h4, h5]
  · intro h1 h2 h3 h4 h5 h6
    simp [process_numeric_val, h1, h2, h3, h4, h5, h6]
  · intro h1 h2 h3 h4 h5 h6
    simp [process_numeric_val, h1, h2, h3, h4, h5, h6]
  · intro hnum hfmt
    refine ⟨?_, ?_, ?_, ?_⟩ <;>
      simp [exclusive_maximum_check, exclusive_minimum_check, minimum_check,
        maximum_check, hnum, hfmt]
  · rintro (⟨s, rfl⟩ | ⟨a, b, rfl⟩) <;> rfl
  · rintro (⟨n, rfl⟩ | ⟨q, rfl⟩) <;> rfl

/-- C8 witness: the dispatch applied to a filter whose `exclusive_max` is
active alongside a `minimum`; the later attribute is ignored. -/
theorem C8_process_numeric_val_amended_witness :
    process_numeric_val (.int 4)
        { _type := some "number", exclusive_max := some (.int 7),
          minimum := some (.int 6) } =
      exclusive_maximum_check (.int 4)
        { _type := some "number", exclusive_max := some (.int 7),
          minimum := some (.int 6) } :=
  (C8_process_numeric_val_amended (.int 4) _).1 (by decide)

/-- C9: a submission requirement whose truthy `from` group matches no input
descriptor makes `to_requirement` raise, and any `make_requirement` call whose
submission-requirement list contains it raises as well, surfacing the error
instead of yielding a requirement. -/
theorem C9_empty_from_group_error (sr : SubmissionRequirements)
    (descriptors : List InputDescriptors) (g : String)
    (hfrom : sr._from = some g) (hg : g ≠ "")
    (hmatch : ∀ d ∈ descriptors, contains d.groups g = false) :
    isError (to_requirement sr descriptors) = true ∧
    ∀ srs : List SubmissionRequirements, sr ∈ srs →
      isError (make_requirement srs descriptors) = true := by
  have hfilter : descriptors.filter (fun d => contains d.groups g) = [] := by
    induction descriptors with
    | nil => rfl
    | cons d rest ih =>
      have hd := hmatch d (by simp)
      simp only [List.filter_cons, hd, Bool.false_eq_true, if_false]
      exact ih (fun d2 hd2 => hmatch d2 (by simp [hd2]))
  have h1 : isError (to_requirement sr descriptors) = true := by
    obtain ⟨f, fn, rule, cnt, mn, mx⟩ := sr
    simp only [SubmissionRequirements._from] at hfrom
    subst hfrom
    simp only [to_requirement, Option.getD_some]
    rw [if_pos (show pyTruthyOptStr (some g) = true by simp [pyTruthyOptStr, hg])]
    rw [hfilter]
    rfl
  refine ⟨h1, ?_⟩
  obtain ⟨e, he⟩ := isError_exists _ h1
  have hlist : ∀ srs : List SubmissionRequirements, sr ∈ srs →
      isError (to_requirement_list srs descriptors) = true := by
    intro srs hmem
    induction srs with
    | nil => simp at hmem
    | cons head tail ih =>
      simp only [to_requirement_list]
      rcases List.mem_cons.mp hmem with heq | hmem2
      · rw [← heq, he]
        rfl
      · cases hh : to_requirement head descriptors with
        | error e2 => rfl
        | ok r =>
          obtain ⟨e3, he3⟩ := isError_exists _ (ih hmem2)
          rw [he3]
          rfl
  intro srs hmem
  have hne : srs.length ≠ 0 := by
    cases srs with
    | nil => simp at hmem
    | cons a l => simp
  simp only [make_requirement]
  rw [if_neg hne]
  obtain ⟨e4, he4⟩ := isError_exists _ (hlist srs hmem)
  rw [he4]
  rfl

/-- C9 witness: the error surfaces for a `pick` requirement over the group
`"A"` against an empty descriptor list, both directly and through
`make_requirement`. -/
theorem C9_empty_from_group_error_witness :
    isError
      (make_requirement [.mk (some "A") [] (some "pick") (some 1) none none]
        ([] : List InputDescriptors)) = true :=
  (C9_empty_from_group_error (.mk (some "A") [] (some "pick") (some 1) none none)
      [] "A" rfl (by decide) (by simp)).2
    [.mk (some "A") [] (some "pick") (some 1) none none] (by simp)

/-- C10: with an empty `fields` sequence and `subject_is_issuer` not required,
`filter_constraints` rejects every credential: the `applicable` flag can never
become true, so the result is the empty list for every input. -/
theorem C10_empty_fields_reject_all (derive : Constraints → VCRecordM → VCRecordM)
    (constraints : Constraints) (credentials : List VCRecordM)
    (hfields : constraints._fields = [])
    (hsubj : constraints.subject_issuer ≠ some "required") :
    filter_constraints derive constraints credentials = .ok [] := by
  induction credentials with
  | nil => rfl
  | cons c rest ih =>
    simp only [filter_constraints]
    rw [if_neg (by rintro ⟨h, -⟩; exact hsubj h)]
    rw [hfields]
    exact ih

/-- C10 witness: the empty-fields constraints reject a concrete non-empty
credential list. -/
theorem C10_empty_fields_reject_all_witness :
    filter_constraints (fun _ c => c)
      { subject_issuer := none, limit_disclosure := none, _fields := [] }
      [{ given_id := "w" }] = .ok [] :=
  C10_empty_fields_reject_all _ _ _ rfl (by simp)

/-- C1 failing-input evaluation: on the map with descriptor `"a"` holding the
credential `u1` and descriptor `"b"` holding `u1` and `u2`, `merge` returns
the credential list `[u1, u2]` but emits for `u2` the path
`$.verifiableCredential[2]`, although `u2` sits at index 1 — the recorded
number is `len(descriptors)`, which the duplicate mapping of `u1` under `"b"`
has already inflated past the credential index. -/
theorem C1_merge_path_index_mismatch :
    (merge [("a", [{ given_id := "u1" }]),
            ("b", [{ given_id := "u1" }, { given_id := "u2" }])]).1.map
        VCRecordM.given_id = ["u1", "u2"] ∧
    (merge [("a", [{ given_id := "u1" }]),
            ("b", [{ given_id := "u1" }, { given_id := "u2" }])]).2.map
        (fun m => (m._id, m.path)) =
      [("a", "$.verifiableCredential[0]"), ("b", "$.verifiableCredential[0]"),
       ("b", "$.verifiableCredential[2]")] :=
  ⟨by decide, by decide⟩

/-- C3 counterexample: with the exclusion set built from the single pair
`("ab", "c")`, the credential with `given_id = "bc"` is dropped under the
descriptor `"a"`, although the pair `("a", "bc")` was never excluded — the
bare string concatenation used as the exclusion key identifies distinct
pairs. -/
theorem C3_exclusion_concat_collision :
    merge_nested_results [[("a", [{ given_id := "bc" }])]]
        (excludeOfPairs [("ab", "c")]) = [("a", ([] : List VCRecordM))] ∧
    ("a", "bc") ∉ [("ab", "c")] :=
  ⟨rfl, by decide⟩

/-- C6 counterexample: a credential that matches the only field is still
rejected by `filter_constraints` when `subject_is_issuer` is required and its
issuer is not among its subjects — retention is not equivalent to
at-least-one-field-matched. -/
theorem C6_subject_required_counterexample :
    filter_by_field
        { paths := ["$.a"], _filter := some { const := some (.str "v") } }
        { given_id := "x", issuer_id := "i", subject_ids := ["s"],
          claims := fun p => if p = "$.a" then [.str "v"] else [] } = .ok true ∧
    filter_constraints (fun _ c => c)
        { subject_issuer := some "required", limit_disclosure := none,
          _fields := [{ paths := ["$.a"], _filter := some { const := some (.str "v") } }] }
        [{ given_id := "x", issuer_id := "i", subject_ids := ["s"],
           claims := fun p => if p = "$.a" then [.str "v"] else [] }] = .ok [] :=
  ⟨rfl, rfl⟩

/-- C7 counterexample: a field with no filter whose path does match raises an
`AttributeError` inside `validate_patch` (`_filter` is `None`) instead of
passing on the non-empty match. -/
theorem C7_absent_filter_error :
    ({ given_id := "x",
       claims := fun p => if p = "$.a" then [.str "v"] else [] } : VCRecordM).claims
        "$.a" ≠ [] ∧
    filter_by_field { paths := ["$.a"], _filter := none }
        { given_id := "x", claims := fun p => if p = "$.a" then [.str "v"] else [] } =
      .error "AttributeError: NoneType object has no attribute _type" :=
  ⟨by decide, rfl⟩

/-- A predicate preserved by every step of a fold holds of the fold result. -/
lemma foldl_inv {α σ : Type} (P : σ → Prop) (f : σ → α → σ)
    (h : ∀ s a, P s → P (f s a)) :
    ∀ (l : List α) (s : σ), P s → P (l.foldl f s) := by
  intro l
  induction l with
  | nil => intro s hs; exact hs
  | cons a rest ih => intro s hs; exact ih (f s a) (h s a hs)

/-- A key that `List.lookup` misses is not among the stored keys. -/
lemma lookup_none_not_mem {β : Type} {l : List (String × β)} {a : String}
    (h : l.lookup a = none) : a ∉ l.map Prod.fst := by
  induction l with
  | nil => simp
  | cons p rest ih =>
    obtain ⟨k, v⟩ := p
    by_cases hb : a = k
    · subst hb
      simp [List.lookup] at h
    · have hb2 : (a == k) = false := beq_eq_false_iff_ne.mpr hb
      simp only [List.lookup, hb2] at h
      simp [hb, ih h]

/-- The invariant of the `merge` loops: the placed credentials correspond
one-to-one, in order, to the keys of `dict_of_creds`, and those keys are
distinct. -/
def MergeInv (st : MergeState) : Prop :=
  st.result.map VCRecordM.given_id = st.dict_of_creds.map Prod.fst ∧
  (st.dict_of_creds.map Prod.fst).Nodup

/-- Placing a credential preserves the invariant: a credential is appended
only when its `given_id` is not yet a key of `dict_of_creds`. -/
lemma mergePlaceCred_inv (st : MergeState) (c : VCRecordM)
    (h : MergeInv st) : MergeInv (mergePlaceCred st c) := by
  unfold mergePlaceCred
  split
  case isTrue hnone =>
    obtain ⟨h1, h2⟩ := h
    have hmem : c.given_id ∉ st.dict_of_creds.map Prod.fst :=
      lookup_none_not_mem (Option.isNone_iff_eq_none.mp hnone)
    constructor
    · simp [h1]
    · simp only [List.map_append, List.map_cons, List.map_nil]
      simp [List.nodup_append, h2, hmem]
  case isFalse => exact h

/-- Appending a descriptor mapping leaves `result` and `dict_of_creds`
untouched, so it preserves the invariant. -/
lemma mergeAddMapping_inv (d : String) (st : MergeState) (c : VCRecordM)
    (h : MergeInv st) : MergeInv (mergeAddMapping d st c) := by
  unfold mergeAddMapping
  split
  · exact h
  · exact h

/-- One credential step of `merge` preserves the invariant. -/
lemma mergeCredStep_inv (d : String) (st : MergeState) (c : VCRecordM)
    (h : MergeInv st) : MergeInv (mergeCredStep d st c) :=
  mergeAddMapping_inv d _ c (mergePlaceCred_inv st c h)

/-- C2: every credential, identified by its `given_id`, appears at most once
in the credential list returned by `merge`, for every descriptor-credentials
map — including maps where a credential occurs under several descriptors. -/
theorem C2_merge_credentials_nodup (m : CredMap) :
    ((merge m).1.map VCRecordM.given_id).Nodup := by
  have h0 : MergeInv ({} : MergeState) := ⟨rfl, List.nodup_nil⟩
  have h : MergeInv ((pySorted strLt (m.map Prod.fst)).foldl
      (fun st desc_id =>
        ((m.lookup desc_id).getD []).foldl (mergeCredStep desc_id) st) {}) :=
    foldl_inv MergeInv _
      (fun s a hs =>
        foldl_inv MergeInv (mergeCredStep a) (fun s2 c hc => mergeCredStep_inv a s2 c hc)
          _ s hs)
      _ _ h0
  obtain ⟨h1, h2⟩ := h
  simpa only [merge, h1] using h2

/-- With a present filter, the inner match loop returns the disjunction of
the evaluator over the matched values. -/
lemma checkMatches_some (f : Filter) (l : List PyVal) :
    checkMatches (some f) l = .ok (l.any (fun v => validate_patch_core v f)) := by
  induction l with
  | nil => rfl
  | cons v vs ih =>
    simp only [checkMatches, validate_patch]
    cases hv : validate_patch_core v f
    · simpa [hv] using ih
    · simp [hv]

/-- With an absent filter, the path loop errors as soon as some path has a
match and returns false when no path has any. -/
lemma filterByFieldPaths_none (field : Field) (credential : VCRecordM)
    (hf : field._filter = none) :
    ∀ ps : List String,
      ((∃ p ∈ ps, credential.claims p ≠ []) →
        ∃ e, filterByFieldPaths field credential ps = .error e) ∧
      ((∀ p ∈ ps, credential.claims p = []) →
        filterByFieldPaths field credential ps = .ok false) := by
  intro ps
  induction ps with
  | nil =>
    refine ⟨?_, fun _ => rfl⟩
    rintro ⟨p, hp, -⟩
    simp at hp
  | cons p ps ih =>
    constructor
    · rintro ⟨q, hq, hne⟩
      simp only [filterByFieldPaths]
      cases hc : credential.claims p with
      | nil =>
        rcases List.mem_cons.mp hq with rfl | hq'
        · exact absurd hc hne
        · exact ih.1 ⟨q, hq', hne⟩
      | cons v vs =>
        rw [hf]
        exact ⟨_, rfl⟩
    · intro hall
      simp only [filterByFieldPaths]
      rw [hall p (by simp)]
      exact ih.2 (fun q hq => hall q (by simp [hq]))

/-- With a present filter, the path loop returns the disjunction, over paths
and matched values in order, of the evaluator verdicts. -/
lemma filterByFieldPaths_some (field : Field) (credential : VCRecordM) (f : Filter)
    (hf : field._filter = some f) :
    ∀ ps : List String,
      filterByFieldPaths field credential ps =
        .ok (ps.any (fun p =>
          (credential.claims p).any (fun v => validate_patch_core v f))) := by
  intro ps
  induction ps with
  | nil => rfl
  | cons p ps ih =>
    simp only [filterByFieldPaths]
    cases hc : credential.claims p with
    | nil =>
      rw [ih]
      simp [hc]
    | cons v vs =>
      rw [hf]
      simp only [checkMatches_some]
      cases hb : (v :: vs).any (fun v => validate_patch_core v f)
      · simp [ih, hc, hb]
      · simp [hc, hb]

/-- C7 amended: with an absent filter, `filter_by_field` raises an
`AttributeError` whenever some path yields a match (it returns false, without
error, only when no path matches); with a present filter it returns, without
error, whether some matched value across all paths and matches in order
passes the filter evaluator. -/
theorem C7_filter_by_field_amended (field : Field) (credential : VCRecordM) :
    (field._filter = none →
      ((∃ p ∈ field.paths, credential.claims p ≠ []) →
        ∃ e, filter_by_field field credential = .error e) ∧
      ((∀ p ∈ field.paths, credential.claims p = []) →
        filter_by_field field credential = .ok false)) ∧
    (∀ f, field._filter = some f →
      filter_by_field field credential =
        .ok (field.paths.any (fun p =>
          (credential.claims p).any (fun v => validate_patch_core v f)))) :=
  ⟨fun hf => filterByFieldPaths_none field credential hf field.paths,
   fun f hf => filterByFieldPaths_some field credential f hf field.paths⟩

/-- C7 witness: the present-filter branch applied to a concrete field whose
const filter passes the single matched value. -/
theorem C7_filter_by_field_amended_witness :
    filter_by_field { paths := ["$.a"], _filter := some { const := some (.str "v") } }
      { given_id := "x", claims := fun p => if p = "$.a" then [.str "v"] else [] } =
      .ok true :=
  ((C7_filter_by_field_amended
      { paths := ["$.a"], _filter := some { const := some (.str "v") } }
      { given_id := "x",
        claims := fun p => if p = "$.a" then [.str "v"] else [] }).2
    { const := some (.str "v") } rfl).trans (by rfl)

/-- The field loop returns true exactly when some field matched: the loop
stops at the first `true`, and a returned `false` means every field returned
`false`. -/
lemma cfa_ok_iff (fields : List Field) (c : VCRecordM) (b : Bool)
    (h : constraint_fields_applicable fields c = .ok b) :
    (b = true ↔ ∃ f ∈ fields, filter_by_field f c = .ok true) := by
  induction fields generalizing b with
  | nil =>
    simp only [constraint_fields_applicable] at h
    injection h with h
    subst h
    simp
  | cons f rest ih =>
    simp only [constraint_fields_applicable] at h
    cases hf : filter_by_field f c with
    | error e =>
      rw [hf] at h
      simp at h
    | ok bb =>
      rw [hf] at h
      cases bb with
      | true =>
        injection h with h
        subst h
        exact ⟨fun _ => ⟨f, by simp, hf⟩, fun _ => rfl⟩
      | false =>
        rw [ih b h]
        constructor
        · rintro ⟨g, hg, hgt⟩
          exact ⟨g, by simp [hg], hgt⟩
        · rintro ⟨g, hg, hgt⟩
          rcases List.mem_cons.mp hg with rfl | hg'
          · rw [hf] at hgt
            exact absurd hgt (by simp)
          · exact ⟨g, hg', hgt⟩

/-- When `filter_constraints` succeeds, the field loop of every input
credential that passes the subject check ran without error. -/
lemma filter_constraints_cfa_ok (derive : Constraints → VCRecordM → VCRecordM)
    (cs : Constraints) :
    ∀ (creds out : List VCRecordM),
      filter_constraints derive cs creds = .ok out →
      ∀ c ∈ creds, ¬(cs.subject_issuer = some "required" ∧ ¬ subject_is_issuer c) →
        ∃ b, constraint_fields_applicable cs._fields c = .ok b := by
  intro creds
  induction creds with
  | nil =>
    intro out h c hc hns
    simp at hc
  | cons d rest ih =>
    intro out h c hc hns
    simp only [filter_constraints] at h
    by_cases hsub : cs.subject_issuer = some "required" ∧ ¬ subject_is_issuer d
    · rw [if_pos hsub] at h
      rcases List.mem_cons.mp hc with rfl | hc'
      · exact absurd hsub hns
      · exact ih out h c hc' hns
    · rw [if_neg hsub] at h
      cases hcfa : constraint_fields_applicable cs._fields d with
      | error e =>
        rw [hcfa] at h
        simp at h
      | ok bb =>
        rw [hcfa] at h
        rcases List.mem_cons.mp hc with rfl | hc'
        · exact ⟨bb, hcfa⟩
        · cases bb with
          | false => exact ih out h c hc' hns
          | true =>
            cases hrest : filter_constraints derive cs rest with
            | error e =>
              rw [hrest] at h
              simp at h
            | ok out' => exact ih out' hrest c hc' hns

/-- With `limit_disclosure` absent, membership in a successful
`filter_constraints` output is exactly: membership in the input, passing the
subject check, and a field loop that returned true. -/
lemma filter_constraints_mem (derive : Constraints → VCRecordM → VCRecordM)
    (cs : Constraints) (hld : cs.limit_disclosure = none) :
    ∀ (creds out : List VCRecordM),
      filter_constraints derive cs creds = .ok out →
      ∀ c : VCRecordM,
        (c ∈ out ↔ c ∈ creds ∧
          ¬(cs.subject_issuer = some "required" ∧ ¬ subject_is_issuer c) ∧
          constraint_fields_applicable cs._fields c = .ok true) := by
  intro creds
  induction creds with
  | nil =>
    intro out h c
    simp only [filter_constraints] at h
    injection h with h
    subst h
    simp
  | cons d rest ih =>
    intro out h c
    simp only [filter_constraints] at h
    by_cases hsub : cs.subject_issuer = some "required" ∧ ¬ subject_is_issuer d
    · rw [if_pos hsub] at h
      rw [ih out h c]
      constructor
      · rintro ⟨hc, hn, ht⟩
        exact ⟨by simp [hc], hn, ht⟩
      · rintro ⟨hc, hn, ht⟩
        rcases List.mem_cons.mp hc with rfl | hc'
        · exact absurd hsub hn
        · exact ⟨hc', hn, ht⟩
    · rw [if_neg hsub] at h
      cases hcfa : constraint_fields_applicable cs._fields d with
      | error e =>
        rw [hcfa] at h
        simp at h
      | ok bb =>
        rw [hcfa] at h
        cases bb with
        | false =>
          rw [ih out h c]
          constructor
          · rintro ⟨hc, hn, ht⟩
            exact ⟨by simp [hc], hn, ht⟩
          · rintro ⟨hc, hn, ht⟩
            rcases List.mem_cons.mp hc with rfl | hc'
            · rw [hcfa] at ht
              exact absurd ht (by simp)
            · exact ⟨hc', hn, ht⟩
        | true =>
          cases hrest : filter_constraints derive cs rest with
          | error e =>
            rw [hrest] at h
            simp at h
          | ok out' =>
            rw [hrest, hld] at h
            simp only [pyTruthyOptStr] at h
            rw [if_neg (by simp)] at h
            injection h with h
            subst h
            constructor
            · intro hmem
              rcases List.mem_cons.mp hmem with rfl | hmem'
              · exact ⟨by simp, hsub, hcfa⟩
              · obtain ⟨h1, h2, h3⟩ := (ih out' hrest c).mp hmem'
                exact ⟨by simp [h1], h2, h3⟩
            · rintro ⟨hc, hn, ht⟩
              rcases List.mem_cons.mp hc with rfl | hc'
              · exact List.mem_cons_self _ _
              · exact List.mem_cons_of_mem _ ((ih out' hrest c).mpr ⟨hc', hn, ht⟩)

/-- C6 amended: for constraints with a non-empty field sequence and no
limit-disclosure transformation, a successful `filter_constraints` retains an
input credential exactly when it passes the `subject_is_issuer` check and at
least one field matches it (first-match short-circuit over the fields). -/
theorem C6_filter_constraints_or_fields_amended
    (derive : Constraints → VCRecordM → VCRecordM) (cs : Constraints)
    (creds out : List VCRecordM) (c : VCRecordM)
    (hfields : cs._fields ≠ [])
    (hld : cs.limit_disclosure = none)
    (h : filter_constraints derive cs creds = .ok out)
    (hc : c ∈ creds) :
    c ∈ out ↔
      (¬(cs.subject_issuer = some "required" ∧ ¬ subject_is_issuer c) ∧
        ∃ f ∈ cs._fields, filter_by_field f c = .ok true) := by
  clear hfields
  rw [filter_constraints_mem derive cs hld creds out h c]
  constructor
  · rintro ⟨-, hn, ht⟩
    exact ⟨hn, (cfa_ok_iff cs._fields c true ht).mp rfl⟩
  · rintro ⟨hn, hex⟩
    obtain ⟨b, hb⟩ := filter_constraints_cfa_ok derive cs creds out h c hc hn
    have hbt : b = true := (cfa_ok_iff cs._fields c b hb).mpr hex
    subst hbt
    exact ⟨hc, hn, hb⟩

/-- C6 witness: the amended retention applied to a matching credential next to
a non-matching one; the matching credential is in the output. -/
theorem C6_filter_constraints_or_fields_amended_witness :
    ({ given_id := "m",
       claims := fun p => if p = "$.a" then [PyVal.str "v"] else [] } : VCRecordM) ∈
      ([{ given_id := "m",
          claims := fun p => if p = "$.a" then [PyVal.str "v"] else [] }] :
        List VCRecordM) :=
  (C6_filter_constraints_or_fields_amended (fun _ c => c)
      { subject_issuer := none, limit_disclosure := none,
        _fields := [{ paths := ["$.a"], _filter := some { const := some (.str "v") } }] }
      [{ given_id := "m",
         claims := fun p => if p = "$.a" then [PyVal.str "v"] else [] },
       { given_id := "n" }]
      [{ given_id := "m",
         claims := fun p => if p = "$.a" then [PyVal.str "v"] else [] }]
      { given_id := "m",
        claims := fun p => if p = "$.a" then [PyVal.str "v"] else [] }
      (by simp) rfl (by rfl) (List.mem_cons_self _ _)).mpr
    ⟨by rintro ⟨h1, -⟩; exact absurd h1 (by simp),
     ⟨{ paths := ["$.a"], _filter := some { const := some (.str "v") } },
      List.mem_cons_self _ _, by rfl⟩⟩

/-- Well-formedness of a `merge_nested_results` accumulator: the tracked
`given_id` list is exactly the ids of the accumulated credentials, without
duplicates. -/
def MnrGood (acc : List VCRecordM × List String) : Prop :=
  acc.2 = acc.1.map VCRecordM.given_id ∧ acc.2.Nodup

/-- One accumulation step preserves well-formedness. -/
lemma mnrStep_good (exclude : List String) (key : String)
    (acc : List VCRecordM × List String) (c : VCRecordM)
    (h : MnrGood acc) : MnrGood (mnrStep exclude key acc c) := by
  unfold mnrStep
  split
  · exact h
  · split
    · exact h
    · rename_i hmem _
      refine ⟨by simp [h.1], ?_⟩
      simp only []
      simp [List.nodup_append, h.2, hmem]

/-- The accumulation fold preserves well-formedness from the empty start. -/
lemma mnrFold_good (exclude : List String) (key : String) (l : List VCRecordM) :
    MnrGood (l.foldl (mnrStep exclude key) ([], [])) :=
  foldl_inv MnrGood _ (mnrStep_good exclude key) l ([], []) ⟨rfl, List.nodup_nil⟩

/-- The rebuild pass over a list with distinct ids, started from an
accumulator none of whose ids occur in the list, appends the list whole. -/
lemma mnrRebuild_general :
    ∀ (l : List VCRecordM) (acc : List VCRecordM × List String),
      acc.2 = acc.1.map VCRecordM.given_id →
      (∀ c ∈ l, c.given_id ∉ acc.2) →
      (l.map VCRecordM.given_id).Nodup →
      l.foldl mnrRebuildStep acc =
        (acc.1 ++ l, acc.2 ++ l.map VCRecordM.given_id) := by
  intro l
  induction l with
  | nil =>
    intro acc h1 h2 h3
    simp
  | cons c rest ih =>
    intro acc h1 h2 h3
    have hnm : c.given_id ∉ acc.2 := h2 c (by simp)
    simp only [List.foldl_cons]
    rw [show mnrRebuildStep acc c =
        (acc.1 ++ [c], acc.2 ++ [c.given_id]) by simp [mnrRebuildStep, hnm]]
    have hnodup : c.given_id ∉ rest.map VCRecordM.given_id ∧
        (rest.map VCRecordM.given_id).Nodup := by
      rw [List.map_cons, List.nodup_cons] at h3
      exact h3
    rw [ih (acc.1 ++ [c], acc.2 ++ [c.given_id]) (by simp [h1]) ?_ hnodup.2]
    · simp
    · intro d hd
      simp only [List.mem_append, List.mem_singleton]
      rintro (hin | heq)
      · exact h2 d (by simp [hd]) hin
      · exact hnodup.1 (heq ▸ List.mem_map_of_mem VCRecordM.given_id hd)

/-- The rebuild pass over a list with distinct ids is the identity
accumulation. -/
lemma mnrRebuild_of_good (l : List VCRecordM)
    (h : (l.map VCRecordM.given_id).Nodup) :
    l.foldl mnrRebuildStep ([], []) = (l, l.map VCRecordM.given_id) := by
  simpa using mnrRebuild_general l ([], []) rfl (by simp) h

/-- Python dict assignment makes the assigned key retrieve the new value. -/
lemma dictSet_lookup_self (result : CredMap) (key : String) (v : List VCRecordM) :
    (dictSet result key v).lookup key = some v := by
  induction result with
  | nil => simp [dictSet, List.lookup]
  | cons p rest ih =>
    obtain ⟨k, w⟩ := p
    by_cases hk : k = key
    · simp [dictSet, hk, List.lookup]
    · have hk2 : (key == k) = false := beq_eq_false_iff_ne.mpr (fun hc => hk hc.symm)
      simp only [dictSet, if_neg hk, List.lookup, hk2]
      exact ih

/-- Python dict assignment leaves other keys untouched. -/
lemma dictSet_lookup_ne (result : CredMap) (key : String) (v : List VCRecordM)
    (k2 : String) (h : k2 ≠ key) :
    (dictSet result key v).lookup k2 = result.lookup k2 := by
  induction result with
  | nil =>
    have hk2 : (k2 == key) = false := beq_eq_false_iff_ne.mpr h
    simp [dictSet, List.lookup, hk2]
  | cons p rest ih =>
    obtain ⟨k, w⟩ := p
    by_cases hk : k = key
    · subst hk
      have hk2 : (k2 == k) = false := beq_eq_false_iff_ne.mpr h
      simp [dictSet, List.lookup, hk2]
    · simp only [dictSet, if_neg hk, List.lookup]
      cases hbeq : (k2 == k)
      · simpa [hbeq] using ih
      · simp [hbeq]

/-- The credentials a flat pair sequence carries for one key, in order. -/
def mnrSpecCreds (P : List (String × List VCRecordM)) (key : String) :
    List VCRecordM :=
  (P.filter (fun kv => kv.1 = key)).flatMap (fun kv => kv.2)

/-- `mnrSpecCreds` distributes over appending pair sequences. -/
lemma mnrSpecCreds_append (P Q : List (String × List VCRecordM)) (key : String) :
    mnrSpecCreds (P ++ Q) key = mnrSpecCreds P key ++ mnrSpecCreds Q key := by
  simp [mnrSpecCreds, List.filter_append]

/-- `mnrSpecCreds` of a single pair. -/
lemma mnrSpecCreds_singleton (k : String) (creds : List VCRecordM) (key : String) :
    mnrSpecCreds [(k, creds)] key = if k = key then creds else [] := by
  by_cases hk : k = key <;> simp [mnrSpecCreds, hk]

/-- A key absent from a pair sequence carries no credentials. -/
lemma mnrSpecCreds_nil_of_not_mem (m : List (String × List VCRecordM)) (key : String)
    (h : key ∉ m.map Prod.fst) : mnrSpecCreds m key = [] := by
  induction m with
  | nil => rfl
  | cons p rest ih =>
    obtain ⟨k, v⟩ := p
    have hk : ¬(k = key) := by
      intro hc
      exact h (by simp [hc])
    simp only [mnrSpecCreds, List.filter_cons]
    rw [if_neg (by simpa using hk)]
    exact ih (fun hc => h (by simp [hc]))

/-- Over a map with distinct keys, the dict lookup agrees with the flat
per-key credential sequence. -/
lemma lookup_nodup_eq_specCreds (m : CredMap) (key : String)
    (h : (m.map Prod.fst).Nodup) :
    (m.lookup key).getD [] = mnrSpecCreds m key := by
  induction m with
  | nil => rfl
  | cons p rest ih =>
    obtain ⟨k, v⟩ := p
    have hnodup : k ∉ rest.map Prod.fst ∧ (rest.map Prod.fst).Nodup := by
      rw [List.map_cons, List.nodup_cons] at h
      exact h
    by_cases hk : key = k
    · subst hk
      have hbeq : (key == key) = true := beq_self_eq_true key
      simp only [List.lookup, hbeq, Option.getD_some]
      rw [show mnrSpecCreds ((key, v) :: rest) key = v ++ mnrSpecCreds rest key from by
        simp [mnrSpecCreds, List.filter_cons]]
      rw [mnrSpecCreds_nil_of_not_mem rest key hnodup.1]
      simp
    · have hbeq : (key == k) = false := beq_eq_false_iff_ne.mpr hk
      have hk2 : ¬(k = key) := fun hc => hk hc.symm
      simp only [List.lookup, hbeq]
      rw [show mnrSpecCreds ((k, v) :: rest) key = mnrSpecCreds rest key from by
        simp [mnrSpecCreds, List.filter_cons, hk2]]
      exact ih hnodup.2

/-- The invariant tying the accumulated dict of `merge_nested_results` to the
flat pair sequence processed so far: each key holds the first-seen,
deduplicated, exclusion-filtered accumulation of its credentials, and an
absent key carries no credentials. -/
def mnrInv (exclude : List String) (P : List (String × List VCRecordM))
    (result : CredMap) : Prop :=
  ∀ key : String,
    ((result.lookup key).getD [] =
      ((mnrSpecCreds P key).foldl (mnrStep exclude key) ([], [])).1) ∧
    (result.lookup key = none → mnrSpecCreds P key = [])

/-- The starting accumulator of a key step equals the spec fold over the
credentials processed so far for that key. -/
lemma mnrStart_eq (exclude : List String) (P : List (String × List VCRecordM))
    (result : CredMap) (k : String) (h : mnrInv exclude P result) :
    mnrStart result k = (mnrSpecCreds P k).foldl (mnrStep exclude k) ([], []) := by
  cases hl : result.lookup k with
  | none =>
    simp only [mnrStart, hl]
    rw [(h k).2 hl]
    rfl
  | some existing =>
    simp only [mnrStart, hl]
    have heq := (h k).1
    rw [hl, Option.getD_some] at heq
    have hgood := mnrFold_good exclude k (mnrSpecCreds P k)
    have hnodup : (existing.map VCRecordM.given_id).Nodup := by
      rw [heq, ← hgood.1]
      exact hgood.2
    rw [mnrRebuild_of_good existing hnodup]
    have hsnd : ((mnrSpecCreds P k).foldl (mnrStep exclude k) ([], [])).2 =
        existing.map VCRecordM.given_id := by
      rw [hgood.1, ← heq]
    exact Prod.ext heq hsnd.symm

/-- Processing one `(key, credentials)` pair extends the invariant by that
pair. -/
lemma mnrKeyStep_inv (exclude : List String) (P : List (String × List VCRecordM))
    (result : CredMap) (k : String) (creds : List VCRecordM)
    (h : mnrInv exclude P result) :
    mnrInv exclude (P ++ [(k, creds)]) (mnrKeyStep exclude result k creds) := by
  intro key
  by_cases hk : key = k
  · subst hk
    constructor
    · rw [mnrKeyStep, dictSet_lookup_self, Option.getD_some]
      rw [mnrStart_eq exclude P result key h]
      rw [mnrSpecCreds_append, mnrSpecCreds_singleton]
      rw [if_pos rfl, List.foldl_append]
    · intro hnone
      rw [mnrKeyStep, dictSet_lookup_self] at hnone
      exact absurd hnone (by simp)
  · have hne : (mnrKeyStep exclude result k creds).lookup key = result.lookup key := by
      rw [mnrKeyStep]
      exact dictSet_lookup_ne result k _ key hk
    have hspec : mnrSpecCreds (P ++ [(k, creds)]) key = mnrSpecCreds P key := by
      rw [mnrSpecCreds_append, mnrSpecCreds_singleton,
        if_neg (fun hc => hk hc.symm), List.append_nil]
    rw [hne, hspec]
    exact h key

/-- The invariant carries through a fold over a flat pair sequence. -/
lemma mnr_fold_inv (exclude : List String) :
    ∀ (Q P : List (String × List VCRecordM)) (result : CredMap),
      mnrInv exclude P result →
      mnrInv exclude (P ++ Q)
        (Q.foldl (fun r kv => mnrKeyStep exclude r kv.1 kv.2) result) := by
  intro Q
  induction Q with
  | nil =>
    intro P result h
    simpa using h
  | cons kv rest ih =>
    intro P result h
    obtain ⟨k, creds⟩ := kv
    have hstep := mnrKeyStep_inv exclude P result k creds h
    have hrec := ih (P ++ [(k, creds)]) _ hstep
    simpa using hrec

/-- A fold of folds is the fold over the flattened list. -/
lemma foldl_flatten_eq {σ α : Type} (g : σ → α → σ) :
    ∀ (L : List (List α)) (s : σ),
      L.foldl (fun s l => l.foldl g s) s = L.flatten.foldl g s := by
  intro L
  induction L with
  | nil => intro s; rfl
  | cons l rest ih =>
    intro s
    simp only [List.foldl_cons, List.flatten_cons, List.foldl_append]
    exact ih (l.foldl g s)

/-- `merge_nested_results` is the flat fold of key steps over the
concatenation of the nested maps. -/
lemma mnr_eq_flat (nested : List CredMap) (exclude : List String) :
    merge_nested_results nested exclude =
      nested.flatten.foldl (fun r kv => mnrKeyStep exclude r kv.1 kv.2) [] :=
  foldl_flatten_eq _ nested []

/-- Over maps with distinct keys, the flat per-key credential sequence is the
concatenation of the per-map lookups. -/
lemma flat_specCreds (nested : List CredMap) (key : String)
    (h : ∀ m ∈ nested, (m.map Prod.fst).Nodup) :
    mnrSpecCreds nested.flatten key =
      nested.flatMap (fun m => (m.lookup key).getD []) := by
  induction nested with
  | nil => rfl
  | cons m rest ih =>
    simp only [List.flatten_cons, List.flatMap_cons]
    rw [mnrSpecCreds_append]
    rw [← lookup_nodup_eq_specCreds m key (h m (by simp))]
    rw [ih (fun m2 hm2 => h m2 (by simp [hm2]))]

/-- C3 amended: for every sequence of nested result maps (each with distinct
descriptor ids) and every exclusion set, `merge_nested_results` gives each
descriptor id the accumulation of its credentials across the maps in order,
keeping first occurrences per `given_id` and skipping a credential exactly
when the bare concatenation `descriptor_id + given_id` occurs in the
exclusion set — so distinct pairs with equal concatenations are identified. -/
theorem C3_merge_nested_results_amended (nested : List CredMap)
    (exclude : List String) (key : String)
    (h : ∀ m ∈ nested, (m.map Prod.fst).Nodup) :
    ((merge_nested_results nested exclude).lookup key).getD [] =
      ((nested.flatMap (fun m => (m.lookup key).getD [])).foldl
        (mnrStep exclude key) ([], [])).1 := by
  rw [mnr_eq_flat]
  have hbase : mnrInv exclude [] [] := by
    intro k
    exact ⟨rfl, fun _ => rfl⟩
  have hinv := mnr_fold_inv exclude nested.flatten [] [] hbase
  have hfin := (hinv key).1
  rw [List.nil_append] at hfin
  rw [hfin, flat_specCreds nested key h]

/-- C3 witness: the amended characterization applied to two concrete maps
sharing the descriptor `"a"`, with the pair `("a", "g2")` excluded. -/
theorem C3_merge_nested_results_amended_witness :
    ((merge_nested_results
        [[("a", [{ given_id := "g1" }])],
         [("a", [{ given_id := "g1" }, { given_id := "g2" }])]]
        (excludeOfPairs [("a", "g2")])).lookup "a").getD [] =
      ((([[("a", [({ given_id := "g1" } : VCRecordM)])],
          [("a", [{ given_id := "g1" }, { given_id := "g2" }])]] :
            List CredMap).flatMap
          (fun m => (m.lookup "a").getD [])).foldl
        (mnrStep (excludeOfPairs [("a", "g2")]) "a") ([], [])).1 :=
  C3_merge_nested_results_amended
    [[("a", [{ given_id := "g1" }])],
     [("a", [{ given_id := "g1" }, { given_id := "g2" }])]]
    (excludeOfPairs [("a", "g2")]) "a" (by simp)

/-- C5 witness: the amended monotonicity applied at minimum 1, maximum 5,
moving from 2 to 3. -/
theorem C5_is_len_applicable_monotonic_amended_witness :
    is_len_applicable
      { count := none, maximum := some 5, minimum := some 1,
        input_descriptors := [], nested_req := [] } 3 = true :=
  C5_is_len_applicable_monotonic_amended _ 2 3 (by decide)
    (fun m h => by injection h with h; omega)
    (fun M h => by injection h with h; omega)
    (by decide)
    (fun c h => nomatch h)
    (fun M h _ => by injection h with h; omega)

end PresExch
